import Mathlib

/-!
Shallow embedding and verification of the pcax training core:
the iterative solver of src/examples/pc_decoder/pc_decoder/training.py
(loop body, convergence predicates, mode dispatch of train_on_batch),
the divergence handling of the epoch loop in
src/examples/workshop/SkipErr/cifar10/skip_error.py, optimizer-name
validation in train_model, and hash_pytree of src/pcax/core/util.py.

Machine floats are modelled as rationals.  The opaque numerical model
(loss, gradients, masked optimizer updates, per-node energies) is
abstracted as a `Dynamics` record, so every theorem about loop control
holds for the actual numerics as a special case.  `jax.lax.while_loop`
is modelled as a fuel-indexed loop; every call site supplies provably
sufficient fuel and the termination lemmas show the predicate is false
at the returned state, so the fuel-indexed loop coincides with the
unbounded while loop of jax.
-/

namespace PcaxSpec

/-- The `pc_mode` configuration selector of `Params` (training.py). -/
inductive PCMode
  | pc
  | ppc
  | efficient_ppc
deriving DecidableEq, Repr

/-- The hyperparameters of `Params` that `train_on_batch` reads.
Iteration counts are natural numbers (the configuration holds
nonnegative integer counts); the convergence threshold is a rational
standing for the float threshold. -/
structure Params where
  T : ℕ
  T_min_x_updates : ℕ
  T_min_w_updates : ℕ
  energy_convergence_threshold : ℚ
  pc_mode : PCMode
  preserve_all_pc_states_between_batches : Bool

/-- Abstraction of the numerical model closed over the batch: gradients
(`pxu.grad_and_values` applied to the loss), the summed total energy
returned by `loss`, the per-node energy sums, and the two masked
optimizer updates `optim_x` / `optim_w` (each consuming the gradients
computed at the pre-update point). -/
structure Dynamics (M G : Type) where
  grad : M → G
  lossEnergy : M → ℚ
  nodeEnergies : M → List ℚ
  applyOptimX : M → G → M
  applyOptimW : M → G → M

/-- The `_LoopState` NamedTuple of training.py, with the mutable model
threaded explicitly (in the python code the model is mutated in place by
the loop body). -/
structure LoopState (M : Type) where
  iter_index : ℕ
  num_x_updates : ℕ
  num_w_updates : ℕ
  prev_energy : ℚ
  curr_energy : ℚ
  all_energies : List (List ℚ)
  model : M

/-- The loop body produced by `_build_loop_body(loss, update_x, update_w)`:
compute gradients and the pre-update energy, apply `optim_x` and/or
`optim_w` according to the flags, recompute the energy, write the
per-node energies into row `iter_index` of the history buffer
(`all_energies.at[iter_index].set`, whose out-of-bounds writes jax
drops, matching `List.set`), and advance the counters. -/
def loop_body {M G : Type} (D : Dynamics M G) (update_x update_w : Bool)
    (s : LoopState M) : LoopState M :=
  let gradients := D.grad s.model
  let prev_energy := D.lossEnergy s.model
  let m_x := if update_x then D.applyOptimX s.model gradients else s.model
  let m_w := if update_w then D.applyOptimW m_x gradients else m_x
  let curr_energy := D.lossEnergy m_w
  let nodes_energies := D.nodeEnergies m_w
  let all_energies := s.all_energies.set s.iter_index nodes_energies
  { iter_index := s.iter_index + 1
    num_x_updates := s.num_x_updates + (if update_x then 1 else 0)
    num_w_updates := s.num_w_updates + (if update_w then 1 else 0)
    prev_energy := prev_energy
    curr_energy := curr_energy
    all_energies := all_energies
    model := m_w }

/-- The model state reached from `m` by one body step: optimizer updates
applied (with the gradients taken at `m`) according to the phase flags. -/
def updated_model {M G : Type} (D : Dynamics M G) (update_x update_w : Bool)
    (m : M) : M :=
  let gradients := D.grad m
  let m_x := if update_x then D.applyOptimX m gradients else m
  if update_w then D.applyOptimW m_x gradients else m_x

/-- Fuel-indexed functional model of `pxu.flow.while_loop` /
`jax.lax.while_loop`: run `body` while `cond` holds, at most `fuel`
times.  (The `examples` argument threaded unchanged by the python loop
is absorbed into `body`.) -/
def while_loop {σ : Type _} (body : σ → σ) (cond : σ → Bool) :
    ℕ → σ → σ
  | 0, s => s
  | n + 1, s => if cond s then while_loop body cond n (body s) else s

/-- The python-int `t_iterations` bound computed at the top of
`train_on_batch`: `T`, lowered by `T_min_w_updates` in efficient_ppc
mode (a signed subtraction in python, hence valued in ℤ). -/
def t_iterations (p : Params) : ℤ :=
  if p.pc_mode = PCMode.efficient_ppc then (p.T : ℤ) - (p.T_min_w_updates : ℤ)
  else (p.T : ℤ)

/-- The `total_iterations` bound of `train_on_batch`: `T`, raised to
`T + 1` in pc mode.  It is also the number of rows of the preallocated
`all_energies` buffer. -/
def total_iterations (p : Params) : ℕ :=
  if p.pc_mode = PCMode.pc then p.T + 1 else p.T

/-- The `t_loop_should_continue` predicate of `train_on_batch`. -/
def t_loop_should_continue (p : Params) {M : Type} (s : LoopState M) : Bool :=
  let cond := decide ((s.iter_index : ℤ) < t_iterations p)
  if p.pc_mode = PCMode.efficient_ppc then
    cond &&
      (decide (p.energy_convergence_threshold < |s.curr_energy - s.prev_energy|)
        || decide (s.iter_index < p.T_min_x_updates))
  else cond

/-- The `w_loop_should_continue` predicate of `train_on_batch`. -/
def w_loop_should_continue (p : Params) {M : Type} (s : LoopState M) : Bool :=
  decide (s.iter_index < total_iterations p)

/-- Body of the first (inference) loop:
`_build_loop_body(loss, update_x=True, update_w=params.pc_mode == "ppc")`. -/
def t_body (p : Params) {M G : Type} (D : Dynamics M G) :
    LoopState M → LoopState M :=
  loop_body D true (decide (p.pc_mode = PCMode.ppc))

/-- Body of the second (weight-learning) loop:
`_build_loop_body(loss, update_x=False, update_w=True)`. -/
def w_body {M G : Type} (D : Dynamics M G) : LoopState M → LoopState M :=
  loop_body D false true

/-- The first `pxu.flow.while_loop` call of `train_on_batch`.  The fuel
`(t_iterations p).toNat` is sufficient: the predicate forces
`iter_index < t_iterations` and the body increments `iter_index`. -/
def run_t_loop (p : Params) {M G : Type} (D : Dynamics M G)
    (s : LoopState M) : LoopState M :=
  while_loop (t_body p D) (t_loop_should_continue p) (t_iterations p).toNat s

/-- The second `pxu.flow.while_loop` call of `train_on_batch`, run only
in pc / efficient_ppc mode. -/
def run_w_loop (p : Params) {M G : Type} (D : Dynamics M G)
    (s : LoopState M) : LoopState M :=
  while_loop (w_body D) (w_loop_should_continue p) (total_iterations p) s

/-- The `initial_state` value built in `train_on_batch`: zero counters
and energies, and an `all_energies` buffer of shape
`(total_iterations, len(model.pc_nodes))` filled with zeros. -/
def initial_state (p : Params) {M : Type} (numNodes : ℕ) (m : M) :
    LoopState M :=
  { iter_index := 0
    num_x_updates := 0
    num_w_updates := 0
    prev_energy := 0
    curr_energy := 0
    all_energies := List.replicate (total_iterations p)
      (List.replicate numNodes (0 : ℚ))
    model := m }

/-- The fields of `TrainOnBatchResult` that the solver loop determines
(the mse is a separate feed-forward prediction, outside the loops). -/
structure TrainOnBatchResult where
  energies : List (List ℚ)
  iterations_done : ℕ
  num_x_updates : ℕ
  num_w_updates : ℕ

/-- The loop pipeline of `train_on_batch`: the inference loop, followed
in pc / efficient_ppc mode by the weight-learning loop, then extraction
of the result fields from the final state. -/
def train_on_batch (p : Params) {M G : Type} (D : Dynamics M G)
    (numNodes : ℕ) (m0 : M) : TrainOnBatchResult :=
  let s0 := initial_state p numNodes m0
  let s1 := run_t_loop p D s0
  let s2 :=
    if p.pc_mode = PCMode.pc ∨ p.pc_mode = PCMode.efficient_ppc then
      run_w_loop p D s1
    else s1
  { energies := s2.all_energies
    iterations_done := s2.iter_index
    num_x_updates := s2.num_x_updates
    num_w_updates := s2.num_w_updates }

/-! Generic lemmas about the fuel-indexed while loop. -/

theorem while_loop_inv {σ : Type _} (body : σ → σ) (cond : σ → Bool)
    (P : σ → Prop) (h : ∀ s, cond s = true → P s → P (body s)) :
    ∀ (n : ℕ) (s : σ), P s → P (while_loop body cond n s) := by
  intro n
  induction n with
  | zero => intro s hs; exact hs
  | succ n ih =>
    intro s hs
    rw [while_loop]
    by_cases hc : cond s = true
    · simp only [hc, if_true]
      exact ih (body s) (h s hc hs)
    · simp only [Bool.not_eq_true] at hc
      simp only [hc, Bool.false_eq_true, if_false]
      exact hs

theorem while_loop_cond_false {σ : Type _} (body : σ → σ) (cond : σ → Bool)
    (meas : σ → ℕ) (hdec : ∀ s, cond s = true → meas (body s) < meas s) :
    ∀ (n : ℕ) (s : σ), meas s ≤ n →
      cond (while_loop body cond n s) = false := by
  intro n
  induction n with
  | zero =>
    intro s hs
    rw [while_loop]
    by_contra hc
    simp only [Bool.not_eq_false] at hc
    exact absurd (hdec s hc) (by omega)
  | succ n ih =>
    intro s hs
    rw [while_loop]
    by_cases hc : cond s = true
    · simp only [hc, if_true]
      exact ih (body s) (by have := hdec s hc; omega)
    · simp only [Bool.not_eq_true] at hc
      simp only [hc, Bool.false_eq_true, if_false]

theorem while_loop_count {σ : Type _} (body : σ → σ) (cond : σ → Bool)
    (f : σ → ℕ) (B : ℕ) (hcond : ∀ s, cond s = decide (f s < B))
    (hinc : ∀ s, f (body s) = f s + 1) :
    ∀ (n : ℕ) (s : σ), B ≤ f s + n →
      f (while_loop body cond n s) = max (f s) B := by
  intro n
  induction n with
  | zero =>
    intro s hs
    rw [while_loop]
    omega
  | succ n ih =>
    intro s hs
    rw [while_loop, hcond]
    by_cases hlt : f s < B
    · rw [if_pos (by simpa using hlt)]
      rw [ih (body s) (by rw [hinc]; omega), hinc]
      omega
    · rw [if_neg (by simpa using hlt)]
      omega

theorem while_loop_sum {σ : Type _} (body : σ → σ) (cond : σ → Bool)
    (f g : σ → ℕ)
    (h : ∀ s, cond s = true → f (body s) = f s + 1 ∧ g (body s) = g s + 1) :
    ∀ (n : ℕ) (s : σ),
      g (while_loop body cond n s) + f s = g s + f (while_loop body cond n s) := by
  intro n
  induction n with
  | zero => intro s; rw [while_loop]
  | succ n ih =>
    intro s
    rw [while_loop]
    by_cases hc : cond s = true
    · simp only [hc, if_true]
      have hb := h s hc
      have := ih (body s)
      omega
    · simp only [Bool.not_eq_true] at hc
      simp only [hc, Bool.false_eq_true, if_false]

theorem while_loop_const {σ : Type _} {α : Type _} (body : σ → σ)
    (cond : σ → Bool) (g : σ → α)
    (h : ∀ s, cond s = true → g (body s) = g s) :
    ∀ (n : ℕ) (s : σ), g (while_loop body cond n s) = g s := by
  intro n
  induction n with
  | zero => intro s; rw [while_loop]
  | succ n ih =>
    intro s
    rw [while_loop]
    by_cases hc : cond s = true
    · simp only [hc, if_true]
      rw [ih (body s), h s hc]
    · simp only [Bool.not_eq_true] at hc
      simp only [hc, Bool.false_eq_true, if_false]

/-! Field-level facts about the loop body. -/

theorem loop_body_iter {M G : Type} (D : Dynamics M G) (ux uw : Bool)
    (s : LoopState M) : (loop_body D ux uw s).iter_index = s.iter_index + 1 :=
  rfl

theorem loop_body_num_x {M G : Type} (D : Dynamics M G) (ux uw : Bool)
    (s : LoopState M) :
    (loop_body D ux uw s).num_x_updates =
      s.num_x_updates + (if ux then 1 else 0) :=
  rfl

theorem loop_body_num_w {M G : Type} (D : Dynamics M G) (ux uw : Bool)
    (s : LoopState M) :
    (loop_body D ux uw s).num_w_updates =
      s.num_w_updates + (if uw then 1 else 0) :=
  rfl

theorem loop_body_energies_length {M G : Type} (D : Dynamics M G)
    (ux uw : Bool) (s : LoopState M) :
    (loop_body D ux uw s).all_energies.length = s.all_energies.length := by
  simp [loop_body]

/-! Concrete instances used by the closed witness theorems. -/

/-- A concrete one-dimensional instance of the abstract numerics: the
model state is a single rational, energy is the state itself, and the
optimizer steps shrink it. -/
def exDyn : Dynamics ℚ ℚ where
  grad := fun m => m
  lossEnergy := fun m => m
  nodeEnergies := fun m => [m]
  applyOptimX := fun m g => m - g / 2
  applyOptimW := fun m g => m - g / 4

/-- A concrete efficient_ppc parameter setting. -/
def exParamsE : Params where
  T := 4
  T_min_x_updates := 1
  T_min_w_updates := 1
  energy_convergence_threshold := 1 / 10
  pc_mode := PCMode.efficient_ppc
  preserve_all_pc_states_between_batches := false

/-- A concrete initial loop state over `exParamsE`. -/
def exStateE : LoopState ℚ := initial_state exParamsE 1 (1 : ℚ)

/-- Unfolding of the efficient_ppc continuation predicate. -/
theorem t_cond_eppc_iff (p : Params) {M : Type}
    (hm : p.pc_mode = PCMode.efficient_ppc) (s : LoopState M) :
    t_loop_should_continue p s = true ↔
      ((s.iter_index : ℤ) < (p.T : ℤ) - (p.T_min_w_updates : ℤ) ∧
        (p.energy_convergence_threshold < |s.curr_energy - s.prev_energy| ∨
          s.iter_index < p.T_min_x_updates)) := by
  simp [t_loop_should_continue, t_iterations, hm]

/-- C1: in efficient_ppc mode, the inference loop of train_on_batch
continues after a step exactly when
`iter_index < T - T_min_w_updates` and
(`|curr_energy - prev_energy| > energy_convergence_threshold` or
`iter_index < T_min_x_updates`), with the energies read from the loop
state; and for every parameter setting the loop performs no further step
as soon as this predicate is false. -/
theorem C1_efficient_ppc_continuation (p : Params) {M G : Type}
    (D : Dynamics M G) (s : LoopState M) (n : ℕ)
    (hmode : p.pc_mode = PCMode.efficient_ppc) :
    (t_loop_should_continue p s = true ↔
      ((s.iter_index : ℤ) < (p.T : ℤ) - (p.T_min_w_updates : ℤ) ∧
        (p.energy_convergence_threshold < |s.curr_energy - s.prev_energy| ∨
          s.iter_index < p.T_min_x_updates))) ∧
    (t_loop_should_continue p s = true →
      while_loop (t_body p D) (t_loop_should_continue p) (n + 1) s =
        while_loop (t_body p D) (t_loop_should_continue p) n (t_body p D s)) ∧
    (t_loop_should_continue p s = false →
      while_loop (t_body p D) (t_loop_should_continue p) n s = s) := by
  refine ⟨t_cond_eppc_iff p hmode s, ?_, ?_⟩
  · intro h
    rw [while_loop, if_pos h]
  · intro h
    cases n with
    | zero => rw [while_loop]
    | succ n => rw [while_loop, if_neg (by simp [h])]

/-- Witness for C1 at a concrete parameter setting, dynamics and state. -/
theorem C1_witness :
    exParamsE.pc_mode = PCMode.efficient_ppc ∧
    ((t_loop_should_continue exParamsE exStateE = true ↔
      ((exStateE.iter_index : ℤ) <
          (exParamsE.T : ℤ) - (exParamsE.T_min_w_updates : ℤ) ∧
        (exParamsE.energy_convergence_threshold <
            |exStateE.curr_energy - exStateE.prev_energy| ∨
          exStateE.iter_index < exParamsE.T_min_x_updates))) ∧
    (t_loop_should_continue exParamsE exStateE = true →
      while_loop (t_body exParamsE exDyn) (t_loop_should_continue exParamsE)
          3 exStateE =
        while_loop (t_body exParamsE exDyn) (t_loop_should_continue exParamsE)
          2 (t_body exParamsE exDyn exStateE)) ∧
    (t_loop_should_continue exParamsE exStateE = false →
      while_loop (t_body exParamsE exDyn) (t_loop_should_continue exParamsE)
          2 exStateE = exStateE)) :=
  ⟨rfl, C1_efficient_ppc_continuation exParamsE exDyn exStateE 2 rfl⟩

/-- C4: every body iteration, in order: (1) computes the gradient of the
total energy and with it the pre-update total energy, stored as
`prev_energy`; (2) applies the masked optimizer step(s) selected by the
phase flags, using the gradients of step (1); (3) recomputes total
energy after the update, stored as `curr_energy`; (4) writes the
per-node energies of the updated model into row `iter_index` of the
history buffer and increments `iter_index` by one. -/
theorem C4_loop_body_order {M G : Type} (D : Dynamics M G)
    (update_x update_w : Bool) (s : LoopState M) :
    (loop_body D update_x update_w s).prev_energy = D.lossEnergy s.model ∧
    (loop_body D update_x update_w s).model =
      updated_model D update_x update_w s.model ∧
    (loop_body D update_x update_w s).curr_energy =
      D.lossEnergy (updated_model D update_x update_w s.model) ∧
    (loop_body D update_x update_w s).all_energies =
      s.all_energies.set s.iter_index
        (D.nodeEnergies (updated_model D update_x update_w s.model)) ∧
    (loop_body D update_x update_w s).iter_index = s.iter_index + 1 :=
  ⟨rfl, rfl, rfl, rfl, rfl⟩

/-! Loop-level facts about the two while loops of train_on_batch. -/

theorem t_cond_iter_lt (p : Params) {M : Type} (s : LoopState M)
    (h : t_loop_should_continue p s = true) :
    (s.iter_index : ℤ) < t_iterations p := by
  by_cases hm : p.pc_mode = PCMode.efficient_ppc
  · rw [t_loop_should_continue, if_pos hm, Bool.and_eq_true] at h
    simpa using h.1
  · rw [t_loop_should_continue, if_neg hm] at h
    simpa using h

theorem t_cond_of_not_eppc (p : Params) {M : Type}
    (hm : p.pc_mode ≠ PCMode.efficient_ppc) (s : LoopState M) :
    t_loop_should_continue p s = decide (s.iter_index < p.T) := by
  rw [t_loop_should_continue, if_neg hm, t_iterations, if_neg hm]
  simp

theorem t_iterations_le_total (p : Params) :
    t_iterations p ≤ (total_iterations p : ℤ) := by
  rw [t_iterations, total_iterations]
  by_cases hm : p.pc_mode = PCMode.efficient_ppc
  · rw [if_pos hm, if_neg (by rw [hm]; decide)]
    omega
  · rw [if_neg hm]
    by_cases hp : p.pc_mode = PCMode.pc <;> simp [hp]

theorem run_t_loop_iter_of_not_eppc (p : Params) {M G : Type}
    (D : Dynamics M G) (hm : p.pc_mode ≠ PCMode.efficient_ppc)
    (s : LoopState M) :
    (run_t_loop p D s).iter_index = max s.iter_index p.T := by
  rw [run_t_loop, show (t_iterations p).toNat = p.T by
    rw [t_iterations, if_neg hm]; omega]
  exact while_loop_count _ _ (fun s => s.iter_index) p.T
    (t_cond_of_not_eppc p hm) (fun s => loop_body_iter D true _ s) p.T s
    (by omega)

theorem run_t_loop_num_x (p : Params) {M G : Type} (D : Dynamics M G)
    (s : LoopState M) :
    (run_t_loop p D s).num_x_updates + s.iter_index =
      s.num_x_updates + (run_t_loop p D s).iter_index := by
  rw [run_t_loop]
  exact while_loop_sum (t_body p D) (t_loop_should_continue p)
    (fun s => s.iter_index) (fun s => s.num_x_updates)
    (fun s _ => ⟨rfl, rfl⟩) _ s

theorem run_t_loop_num_w_of_not_ppc (p : Params) {M G : Type}
    (D : Dynamics M G) (hm : p.pc_mode ≠ PCMode.ppc) (s : LoopState M) :
    (run_t_loop p D s).num_w_updates = s.num_w_updates := by
  rw [run_t_loop]
  refine while_loop_const (t_body p D) (t_loop_should_continue p)
    (fun s => s.num_w_updates) ?_ _ s
  intro s _
  show (loop_body D true (decide (p.pc_mode = PCMode.ppc)) s).num_w_updates =
    s.num_w_updates
  rw [loop_body_num_w]
  simp [hm]

theorem run_t_loop_iter_le_total (p : Params) {M G : Type} (D : Dynamics M G)
    (s : LoopState M) (hs : s.iter_index ≤ total_iterations p) :
    (run_t_loop p D s).iter_index ≤ total_iterations p := by
  rw [run_t_loop]
  refine while_loop_inv (t_body p D) (t_loop_should_continue p)
    (fun s => s.iter_index ≤ total_iterations p) ?_ _ s hs
  intro s hc hP
  have hi : (t_body p D s).iter_index = s.iter_index + 1 := rfl
  have h1 := t_cond_iter_lt p s hc
  have h2 := t_iterations_le_total p
  have hP2 : s.iter_index ≤ total_iterations p := hP
  show (t_body p D s).iter_index ≤ total_iterations p
  omega

theorem run_w_loop_iter (p : Params) {M G : Type} (D : Dynamics M G)
    (s : LoopState M) :
    (run_w_loop p D s).iter_index = max s.iter_index (total_iterations p) := by
  rw [run_w_loop]
  exact while_loop_count _ _ (fun s => s.iter_index) (total_iterations p)
    (fun s => rfl) (fun s => loop_body_iter D false true s)
    (total_iterations p) s (by omega)

theorem run_w_loop_num_x (p : Params) {M G : Type} (D : Dynamics M G)
    (s : LoopState M) :
    (run_w_loop p D s).num_x_updates = s.num_x_updates := by
  rw [run_w_loop]
  exact while_loop_const (w_body D) (w_loop_should_continue p)
    (fun s => s.num_x_updates) (fun s _ => rfl) _ s

theorem run_w_loop_num_w (p : Params) {M G : Type} (D : Dynamics M G)
    (s : LoopState M) :
    (run_w_loop p D s).num_w_updates + s.iter_index =
      s.num_w_updates + (run_w_loop p D s).iter_index := by
  rw [run_w_loop]
  exact while_loop_sum (w_body D) (w_loop_should_continue p)
    (fun s => s.iter_index) (fun s => s.num_w_updates)
    (fun s _ => ⟨rfl, rfl⟩) _ s

/-- The fuel supplied by run_t_loop suffices: the continuation predicate
is false at the returned state (so the fuel-indexed loop and the
unbounded jax while loop agree). -/
theorem run_t_loop_stopped (p : Params) {M G : Type} (D : Dynamics M G)
    (s : LoopState M) (hs : s.iter_index = 0) :
    t_loop_should_continue p (run_t_loop p D s) = false := by
  rw [run_t_loop]
  refine while_loop_cond_false (t_body p D) (t_loop_should_continue p)
    (fun s => (t_iterations p - (s.iter_index : ℤ)).toNat) ?_ _ s ?_
  · intro s hc
    have hi : (t_body p D s).iter_index = s.iter_index + 1 := rfl
    have h1 := t_cond_iter_lt p s hc
    show (t_iterations p - ((t_body p D s).iter_index : ℤ)).toNat <
      (t_iterations p - (s.iter_index : ℤ)).toNat
    rw [hi]
    push_cast
    omega
  · show (t_iterations p - (s.iter_index : ℤ)).toNat ≤ (t_iterations p).toNat
    rw [hs]
    simp

/-- C3: in pc mode, train_on_batch runs the inference loop for exactly T
activity-update steps and then exactly one weight-learning step, so the
result satisfies `num_x_updates = T`, `num_w_updates = 1` and
`iterations_done = T + 1`. -/
theorem C3_pc_mode_counts (p : Params) {M G : Type} (D : Dynamics M G)
    (numNodes : ℕ) (m0 : M) (hmode : p.pc_mode = PCMode.pc) :
    (train_on_batch p D numNodes m0).num_x_updates = p.T ∧
    (train_on_batch p D numNodes m0).num_w_updates = 1 ∧
    (train_on_batch p D numNodes m0).iterations_done = p.T + 1 := by
  have hm1 : p.pc_mode ≠ PCMode.efficient_ppc := by rw [hmode]; decide
  have hm2 : p.pc_mode ≠ PCMode.ppc := by rw [hmode]; decide
  have htotal : total_iterations p = p.T + 1 := by
    rw [total_iterations, if_pos hmode]
  have hresult : train_on_batch p D numNodes m0 =
      { energies := (run_w_loop p D (run_t_loop p D
          (initial_state p numNodes m0))).all_energies
        iterations_done := (run_w_loop p D (run_t_loop p D
          (initial_state p numNodes m0))).iter_index
        num_x_updates := (run_w_loop p D (run_t_loop p D
          (initial_state p numNodes m0))).num_x_updates
        num_w_updates := (run_w_loop p D (run_t_loop p D
          (initial_state p numNodes m0))).num_w_updates } := by
    rw [train_on_batch, if_pos (Or.inl hmode)]
  have hi0 : (initial_state p numNodes m0 : LoopState M).iter_index = 0 := rfl
  have hx0 : (initial_state p numNodes m0 : LoopState M).num_x_updates = 0 :=
    rfl
  have hw0 : (initial_state p numNodes m0 : LoopState M).num_w_updates = 0 :=
    rfl
  have hiter1 : (run_t_loop p D (initial_state p numNodes m0)).iter_index =
      p.T := by
    rw [run_t_loop_iter_of_not_eppc p D hm1, hi0]
    omega
  have hnumx1 : (run_t_loop p D (initial_state p numNodes m0)).num_x_updates =
      p.T := by
    have := run_t_loop_num_x p D (initial_state p numNodes m0)
    rw [hi0, hx0, hiter1] at this
    omega
  have hnumw1 : (run_t_loop p D (initial_state p numNodes m0)).num_w_updates =
      0 := by
    rw [run_t_loop_num_w_of_not_ppc p D hm2, hw0]
  have hiter2 : (run_w_loop p D (run_t_loop p D
      (initial_state p numNodes m0))).iter_index = p.T + 1 := by
    rw [run_w_loop_iter, hiter1, htotal]
    omega
  have hnumw2 : (run_w_loop p D (run_t_loop p D
      (initial_state p numNodes m0))).num_w_updates = 1 := by
    have := run_w_loop_num_w p D (run_t_loop p D (initial_state p numNodes m0))
    rw [hiter1, hnumw1, hiter2] at this
    omega
  have hnumx2 : (run_w_loop p D (run_t_loop p D
      (initial_state p numNodes m0))).num_x_updates = p.T := by
    rw [run_w_loop_num_x, hnumx1]
  rw [hresult]
  exact ⟨hnumx2, hnumw2, hiter2⟩

/-- A concrete pc-mode parameter setting. -/
def exParamsP : Params where
  T := 2
  T_min_x_updates := 1
  T_min_w_updates := 1
  energy_convergence_threshold := 1 / 10
  pc_mode := PCMode.pc
  preserve_all_pc_states_between_batches := false

/-- Witness for C3 at a concrete pc-mode setting. -/
theorem C3_witness :
    exParamsP.pc_mode = PCMode.pc ∧
    ((train_on_batch exParamsP exDyn 1 (1 : ℚ)).num_x_updates =
        exParamsP.T ∧
      (train_on_batch exParamsP exDyn 1 (1 : ℚ)).num_w_updates = 1 ∧
      (train_on_batch exParamsP exDyn 1 (1 : ℚ)).iterations_done =
        exParamsP.T + 1) :=
  ⟨rfl, C3_pc_mode_counts exParamsP exDyn 1 (1 : ℚ) rfl⟩

/-- An efficient_ppc setting whose hard cap `T - T_min_w_updates` is
smaller than the minimum-dwell count `T_min_x_updates`. -/
def exParamsE2 : Params where
  T := 2
  T_min_x_updates := 1
  T_min_w_updates := 2
  energy_convergence_threshold := 0
  pc_mode := PCMode.efficient_ppc
  preserve_all_pc_states_between_batches := false

/-- C2 counterexample: with `T = 2`, `T_min_w_updates = 2` and
`T_min_x_updates = 1`, the inference loop of train_on_batch refuses to
run at all (the continuation predicate is already false at the initial
state, because `t_iterations = T - T_min_w_updates = 0`), so it
terminates after 0 inference steps, strictly fewer than
`T_min_x_updates = 1`: the claim that inference never terminates before
`T_min_x_updates` steps fails at this parameter setting. -/
theorem C2_counterexample :
    exParamsE2.pc_mode = PCMode.efficient_ppc ∧
    t_loop_should_continue exParamsE2
      (initial_state exParamsE2 1 (1 : ℚ)) = false ∧
    (run_t_loop exParamsE2 exDyn
      (initial_state exParamsE2 1 (1 : ℚ))).num_x_updates = 0 ∧
    (train_on_batch exParamsE2 exDyn 1 (1 : ℚ)).num_x_updates = 0 ∧
    0 < exParamsE2.T_min_x_updates := by
  decide

/-- C2 (amended): in efficient_ppc mode, for every parameter setting
with `T_min_x_updates ≤ T - T_min_w_updates`, the total number of loop
iterations performed by train_on_batch never exceeds `T`, and the
inference loop performs at least `T_min_x_updates` activity-update
steps even when the energy difference is below the convergence
threshold from the first step. -/
theorem C2_amended (p : Params) {M G : Type} (D : Dynamics M G)
    (numNodes : ℕ) (m0 : M) (hmode : p.pc_mode = PCMode.efficient_ppc)
    (hmin : (p.T_min_x_updates : ℤ) ≤ (p.T : ℤ) - (p.T_min_w_updates : ℤ)) :
    (train_on_batch p D numNodes m0).iterations_done ≤ p.T ∧
    p.T_min_x_updates ≤ (train_on_batch p D numNodes m0).num_x_updates := by
  have hmp : p.pc_mode ≠ PCMode.pc := by rw [hmode]; decide
  have htotal : total_iterations p = p.T := by
    rw [total_iterations, if_neg hmp]
  have hresult : train_on_batch p D numNodes m0 =
      { energies := (run_w_loop p D (run_t_loop p D
          (initial_state p numNodes m0))).all_energies
        iterations_done := (run_w_loop p D (run_t_loop p D
          (initial_state p numNodes m0))).iter_index
        num_x_updates := (run_w_loop p D (run_t_loop p D
          (initial_state p numNodes m0))).num_x_updates
        num_w_updates := (run_w_loop p D (run_t_loop p D
          (initial_state p numNodes m0))).num_w_updates } := by
    rw [train_on_batch, if_pos (Or.inr hmode)]
  have hi0 : (initial_state p numNodes m0 : LoopState M).iter_index = 0 := rfl
  have hx0 : (initial_state p numNodes m0 : LoopState M).num_x_updates = 0 :=
    rfl
  have hiter1 : (run_t_loop p D (initial_state p numNodes m0)).iter_index ≤
      total_iterations p :=
    run_t_loop_iter_le_total p D _ (by omega)
  have hstop := run_t_loop_stopped p D (initial_state p numNodes m0) hi0
  have hlow : p.T_min_x_updates ≤
      (run_t_loop p D (initial_state p numNodes m0)).iter_index := by
    have hnot : ¬ (((run_t_loop p D
          (initial_state p numNodes m0)).iter_index : ℤ) <
            (p.T : ℤ) - (p.T_min_w_updates : ℤ) ∧
        (p.energy_convergence_threshold <
            |(run_t_loop p D (initial_state p numNodes m0)).curr_energy -
              (run_t_loop p D (initial_state p numNodes m0)).prev_energy| ∨
          (run_t_loop p D (initial_state p numNodes m0)).iter_index <
            p.T_min_x_updates)) := by
      intro hco
      have hcontra := (t_cond_eppc_iff p hmode _).mpr hco
      rw [hstop] at hcontra
      cases hcontra
    push_neg at hnot
    rcases lt_or_ge ((run_t_loop p D
        (initial_state p numNodes m0)).iter_index : ℤ)
        ((p.T : ℤ) - (p.T_min_w_updates : ℤ)) with hA | hA
    · have h3 := (hnot hA).2
      omega
    · omega
  have hnumx1 := run_t_loop_num_x p D (initial_state p numNodes m0)
  rw [hi0, hx0] at hnumx1
  have hiter2 := run_w_loop_iter p D (run_t_loop p D
    (initial_state p numNodes m0))
  have hnumx2 := run_w_loop_num_x p D (run_t_loop p D
    (initial_state p numNodes m0))
  rw [hresult]
  constructor
  · show (run_w_loop p D (run_t_loop p D
      (initial_state p numNodes m0))).iter_index ≤ p.T
    omega
  · show p.T_min_x_updates ≤ (run_w_loop p D (run_t_loop p D
      (initial_state p numNodes m0))).num_x_updates
    omega

/-- Witness for the amended C2 at a concrete parameter setting. -/
theorem C2_witness :
    exParamsE.pc_mode = PCMode.efficient_ppc ∧
    (exParamsE.T_min_x_updates : ℤ) ≤
      (exParamsE.T : ℤ) - (exParamsE.T_min_w_updates : ℤ) ∧
    ((train_on_batch exParamsE exDyn 1 (1 : ℚ)).iterations_done ≤
        exParamsE.T ∧
      exParamsE.T_min_x_updates ≤
        (train_on_batch exParamsE exDyn 1 (1 : ℚ)).num_x_updates) :=
  ⟨rfl, by decide, C2_amended exParamsE exDyn 1 (1 : ℚ) rfl (by decide)⟩

theorem run_t_loop_energies_length (p : Params) {M G : Type}
    (D : Dynamics M G) (s : LoopState M) :
    (run_t_loop p D s).all_energies.length = s.all_energies.length := by
  rw [run_t_loop]
  refine while_loop_const (t_body p D) (t_loop_should_continue p)
    (fun s => s.all_energies.length) ?_ _ s
  intro s _
  show (loop_body D true (decide (p.pc_mode = PCMode.ppc))
    s).all_energies.length = s.all_energies.length
  exact loop_body_energies_length D true _ s

theorem run_w_loop_energies_length (p : Params) {M G : Type}
    (D : Dynamics M G) (s : LoopState M) :
    (run_w_loop p D s).all_energies.length = s.all_energies.length := by
  rw [run_w_loop]
  refine while_loop_const (w_body D) (w_loop_should_continue p)
    (fun s => s.all_energies.length) ?_ _ s
  intro s _
  show (loop_body D false true s).all_energies.length = s.all_energies.length
  exact loop_body_energies_length D false true s

theorem initial_state_energies_length (p : Params) {M : Type}
    (numNodes : ℕ) (m : M) :
    (initial_state p numNodes m).all_energies.length = total_iterations p := by
  simp [initial_state]

/-- C9: in every mode, whenever a loop body executes (which the while
loop does only on states where its continuation predicate holds), the
loop state satisfies `iter_index < total_iterations`, the first
dimension of the preallocated all_energies history buffer (`T + 1` in pc
mode, `T` otherwise); hence the write
`all_energies.at[iter_index].set` is in bounds, and the returned
`iterations_done` never exceeds the buffer's row count. -/
theorem C9_history_write_in_bounds (p : Params) {M G : Type}
    (D : Dynamics M G) (numNodes : ℕ) (m0 : M) (s : LoopState M)
    (h : t_loop_should_continue p s = true ∨
      w_loop_should_continue p s = true) :
    s.iter_index < total_iterations p ∧
    (train_on_batch p D numNodes m0).iterations_done ≤ total_iterations p ∧
    (train_on_batch p D numNodes m0).energies.length = total_iterations p := by
  refine ⟨?_, ?_, ?_⟩
  · rcases h with h | h
    · have h1 := t_cond_iter_lt p s h
      have h2 := t_iterations_le_total p
      omega
    · rw [w_loop_should_continue] at h
      simpa using h
  · have hiter1 : (run_t_loop p D (initial_state p numNodes m0)).iter_index ≤
        total_iterations p :=
      run_t_loop_iter_le_total p D _ (by
        show (initial_state p numNodes m0 : LoopState M).iter_index ≤
          total_iterations p
        have h0 : (initial_state p numNodes m0 : LoopState M).iter_index = 0 :=
          rfl
        omega)
    by_cases hm : p.pc_mode = PCMode.pc ∨ p.pc_mode = PCMode.efficient_ppc
    · rw [train_on_batch, if_pos hm]
      show (run_w_loop p D (run_t_loop p D
        (initial_state p numNodes m0))).iter_index ≤ total_iterations p
      rw [run_w_loop_iter]
      omega
    · rw [train_on_batch, if_neg hm]
      exact hiter1
  · by_cases hm : p.pc_mode = PCMode.pc ∨ p.pc_mode = PCMode.efficient_ppc
    · rw [train_on_batch, if_pos hm]
      show (run_w_loop p D (run_t_loop p D
        (initial_state p numNodes m0))).all_energies.length =
        total_iterations p
      rw [run_w_loop_energies_length, run_t_loop_energies_length,
        initial_state_energies_length]
    · rw [train_on_batch, if_neg hm]
      show (run_t_loop p D
        (initial_state p numNodes m0)).all_energies.length =
        total_iterations p
      rw [run_t_loop_energies_length, initial_state_energies_length]

/-- Witness for C9 at a concrete setting and state. -/
theorem C9_witness :
    (t_loop_should_continue exParamsP
        (initial_state exParamsP 1 (1 : ℚ)) = true ∨
      w_loop_should_continue exParamsP
        (initial_state exParamsP 1 (1 : ℚ)) = true) ∧
    ((initial_state exParamsP 1 (1 : ℚ)).iter_index <
        total_iterations exParamsP ∧
      (train_on_batch exParamsP exDyn 1 (1 : ℚ)).iterations_done ≤
        total_iterations exParamsP ∧
      (train_on_batch exParamsP exDyn 1 (1 : ℚ)).energies.length =
        total_iterations exParamsP) :=
  ⟨Or.inl (by decide),
    C9_history_write_in_bounds exParamsP exDyn 1 (1 : ℚ)
      (initial_state exParamsP 1 (1 : ℚ)) (Or.inl (by decide))⟩

/-! Divergence handling of the epoch loop in
src/examples/workshop/SkipErr/cifar10/skip_error.py (run_experiment). -/

/-- Result of one epoch's evaluation: either a finite mean accuracy or
NaN.  Only the `np.isnan` test on the value steers control flow, so the
float is modelled as a tagged rational. -/
inductive EvalResult
  | nan : EvalResult
  | acc : ℚ → EvalResult
deriving DecidableEq

/-- The rational carried by a finite eval result (0 on the nan tag; only
ever applied to finite results). -/
def accValue : EvalResult → ℚ
  | EvalResult.nan => 0
  | EvalResult.acc a => a

/-- The epoch loop of run_experiment: each epoch trains, then evaluates;
a NaN mean accuracy logs a warning and breaks out of the loop, otherwise
the score is appended to `test_acc`.  Returns the collected `test_acc`
and the number of epochs that ran training (the divergent epoch
included). -/
def run_epochs (evalAcc : ℕ → EvalResult) : ℕ → ℕ → List ℚ × ℕ
  | 0, _ => ([], 0)
  | n + 1, e =>
    match evalAcc e with
    | EvalResult.nan => ([], 1)
    | EvalResult.acc a =>
      let rest := run_epochs evalAcc n (e + 1)
      (a :: rest.1, rest.2 + 1)

/-- The final `min(test_acc) if test_acc else np.nan` of run_experiment. -/
def min_or_nan : List ℚ → EvalResult
  | [] => EvalResult.nan
  | a :: rest => EvalResult.acc (rest.foldl min a)

/-- The divergence-relevant behaviour of run_experiment: run the epoch
loop from epoch 0, then return `min(test_acc) if test_acc else np.nan`
together with the number of epochs trained.  The function is total: no
exception is raised on divergence. -/
def run_experiment (epochs : ℕ) (evalAcc : ℕ → EvalResult) :
    EvalResult × ℕ :=
  let r := run_epochs evalAcc epochs 0
  (min_or_nan r.1, r.2)

theorem run_epochs_spec (evalAcc : ℕ → EvalResult) :
    ∀ (k n e : ℕ), k < n →
      (∀ j, j < k → evalAcc (e + j) ≠ EvalResult.nan) →
      evalAcc (e + k) = EvalResult.nan →
      run_epochs evalAcc n e =
        ((List.range k).map (fun j => accValue (evalAcc (e + j))), k + 1) := by
  intro k
  induction k with
  | zero =>
    intro n e hk hval hnan
    rw [Nat.add_zero] at hnan
    cases n with
    | zero => omega
    | succ m =>
      rw [run_epochs, hnan]
      simp
  | succ k ih =>
    intro n e hk hval hnan
    cases n with
    | zero => omega
    | succ m =>
      have h0 : evalAcc e ≠ EvalResult.nan := by
        have := hval 0 (by omega)
        rwa [Nat.add_zero] at this
      obtain ⟨a, ha⟩ : ∃ a, evalAcc e = EvalResult.acc a := by
        cases hh : evalAcc e with
        | nan => exact absurd hh h0
        | acc a => exact ⟨a, rfl⟩
      have hrest := ih m (e + 1) (by omega)
        (fun j hj => by
          have := hval (j + 1) (by omega)
          rwa [show e + (j + 1) = e + 1 + j by omega] at this)
        (by rw [show e + 1 + k = e + (k + 1) by omega]; exact hnan)
      rw [run_epochs, ha, hrest]
      simp only [Prod.mk.injEq]
      refine ⟨?_, trivial⟩
      rw [List.range_succ_eq_map, List.map_cons, List.map_map]
      congr 1
      · rw [Nat.add_zero, ha]
        rfl
      · refine List.map_congr_left ?_
        intro j hj
        simp only [Function.comp]
        have harg : e + 1 + j = e + (j + 1) := by omega
        rw [harg]

/-- C5 (amended): when total accuracy becomes non-finite at epoch `k`
(after `k` finite epochs), run_experiment stops training right there
(`k + 1` of the requested epochs run training, the rest are skipped) and
returns normally rather than raising: it reports the minimum of the
scores collected before divergence, which is the NaN sentinel exactly
when divergence precedes any completed epoch. -/
theorem C5_amended (epochs k : ℕ) (evalAcc : ℕ → EvalResult)
    (hk : k < epochs) (hval : ∀ j, j < k → evalAcc j ≠ EvalResult.nan)
    (hnan : evalAcc k = EvalResult.nan) :
    (run_experiment epochs evalAcc).2 = k + 1 ∧
    (run_experiment epochs evalAcc).2 ≤ epochs ∧
    (run_experiment epochs evalAcc).1 =
      min_or_nan ((List.range k).map (fun j => accValue (evalAcc j))) ∧
    (k = 0 → (run_experiment epochs evalAcc).1 = EvalResult.nan) := by
  have hspec := run_epochs_spec evalAcc k epochs 0 hk
    (fun j hj => by simpa using hval j hj) (by simpa using hnan)
  have h1 : run_experiment epochs evalAcc =
      (min_or_nan ((List.range k).map (fun j => accValue (evalAcc (0 + j)))),
        k + 1) := by
    rw [run_experiment, hspec]
  simp only [Nat.zero_add] at h1
  refine ⟨by rw [h1], by rw [h1]; omega, by rw [h1], ?_⟩
  intro hk0
  subst hk0
  rw [h1]
  simp [min_or_nan]

/-- A run whose first epoch evaluates to accuracy 1 and whose second
epoch diverges to NaN. -/
def evalAccEx : ℕ → EvalResult :=
  fun e => if e = 0 then EvalResult.acc 1 else EvalResult.nan

/-- C5 counterexample: the run diverges at epoch 1 of 3; training stops
(only 2 epochs run) and no exception is raised, but the value returned
to the hyperparameter search is the ordinary score 1 collected before
divergence — not a sentinel worst-case score. -/
theorem C5_counterexample :
    evalAccEx 1 = EvalResult.nan ∧
    (run_experiment 3 evalAccEx).2 = 2 ∧
    (run_experiment 3 evalAccEx).1 = EvalResult.acc 1 ∧
    (run_experiment 3 evalAccEx).1 ≠ EvalResult.nan := by
  decide

/-- Witness for the amended C5 at the concrete divergent run. -/
theorem C5_witness :
    evalAccEx 0 ≠ EvalResult.nan ∧
    evalAccEx 1 = EvalResult.nan ∧
    ((run_experiment 3 evalAccEx).2 = 1 + 1 ∧
      (run_experiment 3 evalAccEx).2 ≤ 3 ∧
      (run_experiment 3 evalAccEx).1 =
        min_or_nan ((List.range 1).map (fun j => accValue (evalAccEx j))) ∧
      (1 = 0 → (run_experiment 3 evalAccEx).1 = EvalResult.nan)) :=
  ⟨by decide, by decide,
    C5_amended 3 1 evalAccEx (by omega)
      (fun j hj => by interval_cases j; decide) (by decide)⟩

/-! Weight serialization (C6).  `PCDecoder.save_weights` and
`PCDecoder.load_weights` live in pc_decoder/model.py, which is not part
of the provided sources; they are modelled from the spec (§6): the
serialized blob holds exactly the WEIGHT-role leaves of the parameter
tree, in order, and the forward computation is a pure function of
(weights, activities, input). -/

/-- The role tag of a parameter leaf (spec §3, Node data model). -/
inductive Role
  | WEIGHT
  | ACTIVITY
deriving DecidableEq

/-- A leaf of the model's parameter tree: a role tag and a value. -/
structure Leaf where
  role : Role
  value : ℚ

/-- The topology-relevant shape of a parameter tree: its list of roles. -/
def roles (ps : List Leaf) : List Role := ps.map Leaf.role

/-- The values of the WEIGHT-role leaves, in order. -/
def weight_values : List Leaf → List ℚ
  | [] => []
  | l :: rest =>
    if l.role = Role.WEIGHT then l.value :: weight_values rest
    else weight_values rest

/-- The values of the ACTIVITY-role leaves, in order. -/
def activity_values : List Leaf → List ℚ
  | [] => []
  | l :: rest =>
    if l.role = Role.ACTIVITY then l.value :: activity_values rest
    else activity_values rest

/-- The number of WEIGHT-role leaves. -/
def weight_count : List Leaf → ℕ
  | [] => 0
  | l :: rest => (if l.role = Role.WEIGHT then 1 else 0) + weight_count rest

/-- Modelled from the spec: `save_weights` persists exactly the
WEIGHT-role leaves of the parameter tree — not activities, not optimizer
state (model.py is not under the provided sources). -/
def save_weights (ps : List Leaf) : List ℚ := weight_values ps

/-- Modelled from the spec: `load_weights` restores the WEIGHT-role
leaves in order from a serialized blob, leaving every other leaf
untouched (model.py is not under the provided sources). -/
def load_weights : List Leaf → List ℚ → List Leaf
  | [], _ => []
  | l :: rest, [] => l :: rest
  | l :: rest, b :: bs =>
    if l.role = Role.WEIGHT then
      { l with value := b } :: load_weights rest bs
    else l :: load_weights rest (b :: bs)

/-- The model's forward computation, a pure function of the weight
leaves, the activity leaves and the input (spec §3, Model invariant);
`f` is the concrete network. -/
def forward_pass (f : List ℚ → List ℚ → ℚ → ℚ) (ps : List Leaf)
    (x : ℚ) : ℚ :=
  f (weight_values ps) (activity_values ps) x

theorem weight_values_length (ps : List Leaf) :
    (weight_values ps).length = weight_count ps := by
  induction ps with
  | nil => rfl
  | cons l rest ih =>
    rw [weight_values, weight_count]
    by_cases hr : l.role = Role.WEIGHT
    · rw [if_pos hr, if_pos hr, List.length_cons]
      omega
    · rw [if_neg hr, if_neg hr]
      omega

theorem weight_count_roles (ps : List Leaf) :
    weight_count ps =
      (roles ps).countP (fun r => decide (r = Role.WEIGHT)) := by
  induction ps with
  | nil => rfl
  | cons l rest ih =>
    rw [weight_count, roles, List.map_cons, List.countP_cons]
    rw [roles] at ih
    by_cases hr : l.role = Role.WEIGHT
    · simp [hr, ih]
      omega
    · simp [hr, ih]

theorem load_weights_nil_blob (ps : List Leaf) :
    load_weights ps [] = ps := by
  cases ps with
  | nil => rfl
  | cons l rest => rfl

theorem load_weights_weight_values :
    ∀ (ps : List Leaf) (blob : List ℚ), blob.length = weight_count ps →
      weight_values (load_weights ps blob) = blob := by
  intro ps
  induction ps with
  | nil =>
    intro blob hb
    have hb0 : blob = [] := by
      cases blob with
      | nil => rfl
      | cons b bs => simp [weight_count] at hb
    subst hb0
    rfl
  | cons l rest ih =>
    intro blob hb
    cases blob with
    | nil =>
      rw [load_weights_nil_blob]
      have h1 := weight_values_length (l :: rest)
      have h2 : weight_count (l :: rest) = 0 := by
        simpa using hb.symm
      rw [h2] at h1
      exact List.eq_nil_of_length_eq_zero h1
    | cons b bs =>
      rw [weight_count] at hb
      by_cases hr : l.role = Role.WEIGHT
      · rw [load_weights, if_pos hr, weight_values, if_pos hr]
        rw [if_pos hr] at hb
        rw [ih bs (by simp at hb; omega)]
      · rw [load_weights, if_neg hr, weight_values, if_neg hr]
        rw [if_neg hr] at hb
        exact ih (b :: bs) (by simpa using hb)

theorem load_weights_activity_values :
    ∀ (ps : List Leaf) (blob : List ℚ),
      activity_values (load_weights ps blob) = activity_values ps := by
  intro ps
  induction ps with
  | nil => intro blob; rfl
  | cons l rest ih =>
    intro blob
    cases blob with
    | nil => rw [load_weights_nil_blob]
    | cons b bs =>
      by_cases hr : l.role = Role.WEIGHT
      · have hra : ¬ l.role = Role.ACTIVITY := by rw [hr]; decide
        rw [load_weights, if_pos hr, activity_values, if_neg hra,
          activity_values, if_neg hra]
        exact ih bs
      · rw [load_weights, if_neg hr]
        by_cases hra : l.role = Role.ACTIVITY
        · rw [activity_values, if_pos hra, activity_values, if_pos hra,
            ih (b :: bs)]
        · rw [activity_values, if_neg hra, activity_values, if_neg hra,
            ih (b :: bs)]

/-- C6: `save_weights` followed by `load_weights` into a freshly
constructed model of identical topology (same role structure, same
activity initialization) reproduces the identical forward-pass output
for a fixed input, and the serialized blob is exactly the list of
WEIGHT-role leaf values — activities are neither serialized nor touched
by loading. -/
theorem C6_save_load_round_trip (m fresh : List Leaf)
    (f : List ℚ → List ℚ → ℚ → ℚ) (x : ℚ)
    (hroles : roles fresh = roles m)
    (hacts : activity_values fresh = activity_values m) :
    forward_pass f (load_weights fresh (save_weights m)) x =
      forward_pass f m x ∧
    save_weights m = weight_values m ∧
    activity_values (load_weights fresh (save_weights m)) =
      activity_values fresh := by
  have hlen : (save_weights m).length = weight_count fresh := by
    rw [save_weights, weight_values_length, weight_count_roles,
      weight_count_roles, hroles]
  refine ⟨?_, rfl, load_weights_activity_values fresh _⟩
  rw [forward_pass, forward_pass,
    load_weights_weight_values fresh _ hlen,
    load_weights_activity_values fresh _, hacts, save_weights]

/-- A concrete parameter tree. -/
def mEx : List Leaf :=
  [⟨Role.WEIGHT, 3⟩, ⟨Role.ACTIVITY, 5⟩, ⟨Role.WEIGHT, 7⟩]

/-- A freshly constructed tree of identical topology and activity
initialization but different weights. -/
def freshEx : List Leaf :=
  [⟨Role.WEIGHT, 11⟩, ⟨Role.ACTIVITY, 5⟩, ⟨Role.WEIGHT, 13⟩]

/-- A concrete forward computation. -/
def fEx : List ℚ → List ℚ → ℚ → ℚ :=
  fun ws as x => ws.foldl (· + ·) 0 + as.foldl (· + ·) 0 * x

/-- Witness for C6 at a concrete model, fresh model, network and input. -/
theorem C6_witness :
    roles freshEx = roles mEx ∧
    activity_values freshEx = activity_values mEx ∧
    (forward_pass fEx (load_weights freshEx (save_weights mEx)) 2 =
        forward_pass fEx mEx 2 ∧
      save_weights mEx = weight_values mEx ∧
      activity_values (load_weights freshEx (save_weights mEx)) =
        activity_values freshEx) :=
  ⟨rfl, rfl, C6_save_load_round_trip mEx freshEx fEx 2 rfl rfl⟩

/-! Cross-batch activity carry-over (C7): the restore prologue of
train_on_batch (training.py). -/

/-- The zip-bounded overwrite performed by
`for pc_node, state in zip(model.pc_nodes[1:], model.saved_pc_states):
pc_node["x"] = state`: the first `min`-many node states are replaced by
the saved states, the rest keep their own value. -/
def zip_replace : List ℚ → List ℚ → List ℚ
  | ns, [] => ns
  | [], _ :: _ => []
  | _ :: ns, s :: ss => s :: zip_replace ns ss

/-- The restore prologue of train_on_batch: when the preserve switch is
on and saved states exist, the x-states of `pc_nodes[1:]` are replaced
by the saved states; otherwise the nodes are left as initialized. -/
def restore_pc_states (preserve : Bool) (pc_nodes saved : List ℚ) :
    List ℚ :=
  if preserve && !saved.isEmpty then
    match pc_nodes with
    | [] => []
    | n0 :: rest => n0 :: zip_replace rest saved
  else pc_nodes

/-- Modelled from the spec: entering the per-batch training context
(`pxu.train(model, examples)`, pcax library code not among the provided
sources) initializes the activity states from a forward pass on the
batch; the restore prologue of train_on_batch then runs on the
initialized states. -/
def batch_initial_activities (forwardInit : ℚ → List ℚ) (examples : ℚ)
    (preserve : Bool) (saved : List ℚ) : List ℚ :=
  restore_pc_states preserve (forwardInit examples) saved

/-- Modelled from the spec: the
`preserve_all_pc_states_between_batches` switch is off by default
(params.py is not among the provided sources). -/
def preserve_default : Bool := false

/-- C7: cross-batch activity carry-over is an off-by-default switch.
When the preserve option is disabled, the activities entering the
iterative loops are exactly the forward-pass initialization of the
current batch — nothing persists from the previous batch; when it is
enabled and saved states exist, the activity nodes after the first are
restored from the saved states before the loops run. -/
theorem C7_preserve_states (forwardInit : ℚ → List ℚ) (examples : ℚ)
    (saved : List ℚ) (a0 : ℚ) (rest : List ℚ)
    (hsaved : saved ≠ []) (hinit : forwardInit examples = a0 :: rest) :
    preserve_default = false ∧
    batch_initial_activities forwardInit examples false saved =
      forwardInit examples ∧
    batch_initial_activities forwardInit examples true saved =
      a0 :: zip_replace rest saved := by
  refine ⟨rfl, rfl, ?_⟩
  have h : (true && !saved.isEmpty) = true := by
    cases saved with
    | nil => exact absurd rfl hsaved
    | cons s ss => rfl
  rw [batch_initial_activities, hinit, restore_pc_states, if_pos h]

/-- A concrete forward-pass initialization. -/
def fInitEx : ℚ → List ℚ := fun _ => [2, 3]

/-- Witness for C7 at concrete initialization and saved states. -/
theorem C7_witness :
    ((9 : ℚ) :: [] ≠ ([] : List ℚ)) ∧
    fInitEx 1 = (2 : ℚ) :: [3] ∧
    (preserve_default = false ∧
      batch_initial_activities fInitEx 1 false ((9 : ℚ) :: []) =
        fInitEx 1 ∧
      batch_initial_activities fInitEx 1 true ((9 : ℚ) :: []) =
        (2 : ℚ) :: zip_replace [3] ((9 : ℚ) :: [])) :=
  ⟨List.cons_ne_nil 9 [], rfl,
    C7_preserve_states fInitEx 1 ((9 : ℚ) :: []) 2 [3]
      (List.cons_ne_nil 9 []) rfl⟩

/-! Optimizer-name validation (C8): the optimizer construction of
train_model (training.py) and run_experiment (skip_error.py) is an
if/elif chain whose else branch raises ValueError, and it runs before
any batch is processed. -/

/-- The optimizer rules the configuration can select. -/
inductive OptimKind
  | sgd
  | adamw
deriving DecidableEq

/-- The `optimizer_x` if/elif/else chain of train_model: an unknown name
raises ValueError, modelled as `Except.error`. -/
def make_optim_x (optimizer_x : String) : Except String OptimKind :=
  if optimizer_x = "sgd" then Except.ok OptimKind.sgd
  else if optimizer_x = "adamw" then Except.ok OptimKind.adamw
  else Except.error ("Unknown optimizer_x: " ++ optimizer_x)

/-- The `optimizer_w` if/elif/else chain of train_model. -/
def make_optim_w (optimizer_w : String) : Except String OptimKind :=
  if optimizer_w = "sgd" then Except.ok OptimKind.sgd
  else if optimizer_w = "adamw" then Except.ok OptimKind.adamw
  else Except.error ("Unknown optimizer_w: " ++ optimizer_w)

/-- The construction-then-train order of train_model: both optimizers
are built first, and only then is the per-batch training function
applied to the batches; a construction error propagates before any
batch computation. -/
def train_model (optimizer_x optimizer_w : String) (batches : List ℚ)
    (train_batch : OptimKind → OptimKind → ℚ → ℚ) :
    Except String (List ℚ) := do
  let optim_x ← make_optim_x optimizer_x
  let optim_w ← make_optim_w optimizer_w
  pure (batches.map (train_batch optim_x optim_w))

/-- C8: an unknown optimizer name is rejected with an error at
construction time: the result of train_model is the construction error,
for every batch list and every training function — so no training
computation on any batch ever runs, and the error is not deferred to the
optimizer's first use. -/
theorem C8_unknown_optimizer_fails_fast (nx nw : String)
    (batches : List ℚ) (train_batch : OptimKind → OptimKind → ℚ → ℚ)
    (hx1 : nx ≠ "sgd") (hx2 : nx ≠ "adamw")
    (hw1 : nw ≠ "sgd") (hw2 : nw ≠ "adamw") :
    train_model nx "sgd" batches train_batch =
      Except.error ("Unknown optimizer_x: " ++ nx) ∧
    train_model "sgd" nw batches train_batch =
      Except.error ("Unknown optimizer_w: " ++ nw) := by
  constructor <;>
    simp [train_model, make_optim_x, make_optim_w, hx1, hx2, hw1, hw2,
      Bind.bind, Except.bind]

/-- Witness for C8 with the unknown name "lion". -/
theorem C8_witness :
    ("lion" ≠ "sgd") ∧ ("lion" ≠ "adamw") ∧
    (train_model "lion" "sgd" [1] (fun _ _ q => q) =
        Except.error ("Unknown optimizer_x: " ++ "lion") ∧
      train_model "sgd" "lion" [1] (fun _ _ q => q) =
        Except.error ("Unknown optimizer_w: " ++ "lion")) :=
  ⟨by decide, by decide,
    C8_unknown_optimizer_fails_fast "lion" "lion" [1] (fun _ _ q => q)
      (by decide) (by decide) (by decide) (by decide)⟩

/-! hash_pytree (C10): src/pcax/core/util.py. -/

/-- A pytree leaf as seen by `jax.tree_util.tree_flatten`: either a
jax Array (shape, dtype and element data) or any other python value. -/
inductive PyLeaf (α : Type)
  | jaxArray (shape : List ℕ) (dtype : String) (data : List ℚ)
  | other (v : α)
deriving DecidableEq

/-- A flattened pytree, modelling the `(leaves, treedef)` pair that
`tree_flatten` returns. -/
structure PyTree (α β : Type) where
  treedef : β
  leaves : List (PyLeaf α)

/-- What hash_pytree feeds to `hash` for one leaf: the `(shape, dtype)`
pair for a jax Array, the leaf value itself otherwise. -/
inductive HashableLeaf (α : Type)
  | shapeDtype (shape : List ℕ) (dtype : String)
  | other (v : α)
deriving DecidableEq

/-- The per-leaf case split inside hash_pytree. -/
def hashable_leaf {α : Type} : PyLeaf α → HashableLeaf α
  | PyLeaf.jaxArray shape dtype _ => HashableLeaf.shapeDtype shape dtype
  | PyLeaf.other v => HashableLeaf.other v

/-- The body of hash_pytree: hash the pair of the hashable leaves and
the treedef.
Python's opaque `hash` is an arbitrary function parameter: any function
maps equal inputs to equal outputs, which is all the claim needs. -/
def hash_pytree {α β : Type} (hash : List (HashableLeaf α) × β → ℤ)
    (pytree : PyTree α β) : ℤ :=
  hash (pytree.leaves.map hashable_leaf, pytree.treedef)

/-- Pairwise agreement between leaves: arrays agree in shape and dtype
(element data may differ), non-array leaves are equal. -/
def leaf_agrees {α : Type} : PyLeaf α → PyLeaf α → Prop
  | PyLeaf.jaxArray s d _, PyLeaf.jaxArray t e _ => s = t ∧ d = e
  | PyLeaf.other v, PyLeaf.other w => v = w
  | _, _ => False

theorem hashable_leaf_eq_of_agrees {α : Type} (a b : PyLeaf α)
    (h : leaf_agrees a b) : hashable_leaf a = hashable_leaf b := by
  cases a with
  | jaxArray s d da =>
    cases b with
    | jaxArray t e db =>
      obtain ⟨hs, hd⟩ := h
      rw [hashable_leaf, hashable_leaf, hs, hd]
    | other w => exact h.elim
  | other v =>
    cases b with
    | jaxArray t e db => exact h.elim
    | other w => rw [hashable_leaf, hashable_leaf, show v = w from h]

theorem map_hashable_eq_of_agrees {α : Type} :
    ∀ (l1 l2 : List (PyLeaf α)), List.Forall₂ leaf_agrees l1 l2 →
      l1.map hashable_leaf = l2.map hashable_leaf := by
  intro l1 l2 hl
  induction hl with
  | nil => rfl
  | cons hab htail ih =>
    rw [List.map_cons, List.map_cons,
      hashable_leaf_eq_of_agrees _ _ hab, ih]

/-- C10: hash_pytree does not depend on array contents — for pytrees of
identical tree structure whose array leaves agree pairwise in shape and
dtype and whose non-array leaves are equal, hash_pytree returns the same
integer even when the arrays' element values differ. -/
theorem C10_hash_ignores_array_data {α β : Type}
    (hash : List (HashableLeaf α) × β → ℤ) (t1 t2 : PyTree α β)
    (hdef : t1.treedef = t2.treedef)
    (hl : List.Forall₂ leaf_agrees t1.leaves t2.leaves) :
    hash_pytree hash t1 = hash_pytree hash t2 := by
  rw [hash_pytree, hash_pytree, hdef,
    map_hashable_eq_of_agrees t1.leaves t2.leaves hl]

/-- A concrete pytree with a float array and a plain int leaf. -/
def t1Ex : PyTree ℤ ℕ :=
  ⟨0, [PyLeaf.jaxArray [2] "float32" [1, 2], PyLeaf.other 5]⟩

/-- The same structure with different array element values. -/
def t2Ex : PyTree ℤ ℕ :=
  ⟨0, [PyLeaf.jaxArray [2] "float32" [3, 4], PyLeaf.other 5]⟩

/-- A concrete stand-in for python's hash. -/
def hashEx : List (HashableLeaf ℤ) × ℕ → ℤ :=
  fun p => (p.1.length : ℤ) + (p.2 : ℤ)

/-- Witness for C10: the two trees differ in array data yet hash alike. -/
theorem C10_witness :
    t1Ex.treedef = t2Ex.treedef ∧
    List.Forall₂ leaf_agrees t1Ex.leaves t2Ex.leaves ∧
    t1Ex.leaves ≠ t2Ex.leaves ∧
    hash_pytree hashEx t1Ex = hash_pytree hashEx t2Ex :=
  ⟨rfl,
    List.Forall₂.cons ⟨rfl, rfl⟩ (List.Forall₂.cons rfl List.Forall₂.nil),
    by decide,
    C10_hash_ignores_array_data hashEx t1Ex t2Ex rfl
      (List.Forall₂.cons ⟨rfl, rfl⟩
        (List.Forall₂.cons rfl List.Forall₂.nil))⟩

end PcaxSpec
